import Mathlib

/-!
Shallow embedding of the `chatbot_rag` web frontend, covering:
  * the SSE stream consumption loop of `src/web/app/chat/page.tsx` (`handleSubmit`),
  * the `AuthManager` localStorage logic of `src/web/app/login/page.tsx`,
  * `validateGuestConfig` / `handleGuestLogin` of `src/web/app/page.tsx`,
  * `handleFileSelect` / `handleUpload` of `src/web/app/docs/page.tsx`,
  * `apiUrl` of the shared api helper module.

JavaScript strings are modelled as `List Char`; `JSON.parse` is modelled by a
fuel-based parser over the JSON grammar (objects, arrays, strings with escapes,
numbers, literals).  Numbers keep their raw token text; their JS truthiness is
zero-ness of the mantissa digits.
-/

namespace RagChatbot

/-- Strings of the JS runtime, as character lists. -/
abbrev Str := List Char

/-- Whitespace characters removed by JS `String.prototype.trim`. -/
def isWsChar (c : Char) : Bool :=
  c = ' ' || c = '\t' || c = '\n' || c = '\r' || c = '\x0b' || c = '\x0c' || c = ' '

/-- Model of JS `s.startsWith(p)` (as a test on whole strings). -/
def startsWithStr (p s : Str) : Bool := s.take p.length = p

/-- Model of JS `s.trim()`. -/
def jsTrim (s : Str) : Str :=
  ((s.dropWhile isWsChar).reverse.dropWhile isWsChar).reverse

/-- Lowercasing of a single character, as JS `toLowerCase` acts on ASCII. -/
def toLowerChar (c : Char) : Char :=
  match c with
  | 'A' => 'a' | 'B' => 'b' | 'C' => 'c' | 'D' => 'd' | 'E' => 'e' | 'F' => 'f'
  | 'G' => 'g' | 'H' => 'h' | 'I' => 'i' | 'J' => 'j' | 'K' => 'k' | 'L' => 'l'
  | 'M' => 'm' | 'N' => 'n' | 'O' => 'o' | 'P' => 'p' | 'Q' => 'q' | 'R' => 'r'
  | 'S' => 's' | 'T' => 't' | 'U' => 'u' | 'V' => 'v' | 'W' => 'w' | 'X' => 'x'
  | 'Y' => 'y' | 'Z' => 'z'
  | other => other

/-- Model of JS `s.lastIndexOf(c)`: index of the last occurrence, `none` for -1. -/
def lastIndexOf (c : Char) : Str → Option Nat
  | [] => none
  | x :: xs =>
    match lastIndexOf c xs with
    | some i => some (i + 1)
    | none => if x = c then some 0 else none

/-- Helper for `splitLines`: prepend a character to the first piece. -/
def consHead (c : Char) : List Str → List Str
  | [] => [[c]]
  | l :: ls => (c :: l) :: ls

/-- Model of JS `s.split('\n')`. -/
def splitLines : Str → List Str
  | [] => [[]]
  | c :: cs =>
    if c = '\n' then [] :: splitLines cs
    else consHead c (splitLines cs)

/-! ## JSON values and a model of `JSON.parse` -/

/-- JSON values.  Numbers keep the raw token text of the literal. -/
inductive Json where
  | null
  | bool (b : Bool)
  | num (raw : Str)
  | str (s : Str)
  | arr (elems : List Json)
  | obj (fields : List (Str × Json))

/-- Whitespace accepted between JSON tokens. -/
def isJsonWs (c : Char) : Bool :=
  c = ' ' || c = '\t' || c = '\n' || c = '\r'

/-- Skip inter-token whitespace. -/
def skipWs (s : Str) : Str := s.dropWhile isJsonWs

/-- Value of one hexadecimal digit. -/
def hexVal (c : Char) : Option Nat :=
  if '0' ≤ c ∧ c ≤ '9' then some (c.toNat - '0'.toNat)
  else if 'a' ≤ c ∧ c ≤ 'f' then some (c.toNat - 'a'.toNat + 10)
  else if 'A' ≤ c ∧ c ≤ 'F' then some (c.toNat - 'A'.toNat + 10)
  else none

/-- Parse the body of a JSON string literal (after the opening quote),
returning the decoded content and the input remaining after the closing
quote.  Fuel-based recursion. -/
def parseStringBody : Nat → Str → Option (Str × Str)
  | 0, _ => none
  | _ + 1, [] => none
  | fuel + 1, c :: cs =>
    if c = '"' then some ([], cs)
    else if c = '\\' then
      match cs with
      | [] => none
      | e :: cs2 =>
        if e = 'u' then
          match cs2 with
          | h1 :: h2 :: h3 :: h4 :: cs3 =>
            match hexVal h1, hexVal h2, hexVal h3, hexVal h4 with
            | some v1, some v2, some v3, some v4 =>
              (parseStringBody fuel cs3).map fun r =>
                (Char.ofNat (((v1 * 16 + v2) * 16 + v3) * 16 + v4) :: r.1, r.2)
            | _, _, _, _ => none
          | _ => none
        else
          let esc : Option Char :=
            if e = '"' then some '"'
            else if e = '\\' then some '\\'
            else if e = '/' then some '/'
            else if e = 'b' then some '\x08'
            else if e = 'f' then some '\x0c'
            else if e = 'n' then some '\n'
            else if e = 'r' then some '\r'
            else if e = 't' then some '\t'
            else none
          match esc with
          | some ch => (parseStringBody fuel cs2).map fun r => (ch :: r.1, r.2)
          | none => none
    else if c.toNat < 32 then none
    else (parseStringBody fuel cs).map fun r => (c :: r.1, r.2)

/-- Parse a JSON string literal starting at an opening quote. -/
def parseStringTok : Str → Option (Str × Str)
  | [] => none
  | c :: cs =>
    if c = '"' then parseStringBody (cs.length + 1) cs else none

/-- Parse a run of decimal digits (at least one). -/
def parseDigits (s : Str) : Option (Str × Str) :=
  let ds := s.takeWhile Char.isDigit
  if ds = [] then none else some (ds, s.dropWhile Char.isDigit)

/-- Parse a JSON number token (grammar of RFC 8259), returning its raw text. -/
def parseNumberTok (s : Str) : Option (Str × Str) :=
  let (sign, s1) :=
    match s with
    | '-' :: rest => (['-'], rest)
    | _ => (([] : Str), s)
  match s1 with
  | [] => none
  | c :: rest =>
    if ¬ c.isDigit then none
    else
      let (intPart, s2) : Str × Str :=
        if c = '0' then (['0'], rest)
        else (c :: rest.takeWhile Char.isDigit, rest.dropWhile Char.isDigit)
      let fracStep : Option (Str × Str) :=
        match s2 with
        | '.' :: r =>
          match parseDigits r with
          | some (ds, r2) => some ('.' :: ds, r2)
          | none => none
        | _ => some ([], s2)
      match fracStep with
      | none => none
      | some (fracPart, s3) =>
        let expStep : Option (Str × Str) :=
          match s3 with
          | 'e' :: r | 'E' :: r =>
            let (esign, r1) :=
              match r with
              | '+' :: rr => (['+'], rr)
              | '-' :: rr => (['-'], rr)
              | _ => (([] : Str), r)
            match parseDigits r1 with
            | some (ds, r2) => some ('e' :: (esign ++ ds), r2)
            | none => none
          | _ => some ([], s3)
        match expStep with
        | none => none
        | some (expPart, s4) => some (sign ++ intPart ++ fracPart ++ expPart, s4)

mutual

/-- Parse one JSON value at the head of the input (leading whitespace already
consumed), returning it with the unconsumed input. -/
def parseValue : Nat → Str → Option (Json × Str)
  | 0, _ => none
  | _ + 1, [] => none
  | fuel + 1, c :: rest =>
    if c = 'n' then
      match rest with
      | 'u' :: 'l' :: 'l' :: r => some (Json.null, r)
      | _ => none
    else if c = 't' then
      match rest with
      | 'r' :: 'u' :: 'e' :: r => some (Json.bool true, r)
      | _ => none
    else if c = 'f' then
      match rest with
      | 'a' :: 'l' :: 's' :: 'e' :: r => some (Json.bool false, r)
      | _ => none
    else if c = '"' then
      (parseStringTok (c :: rest)).map fun r => (Json.str r.1, r.2)
    else if c = '\x7b' then
      let s1 := skipWs rest
      match s1 with
      | '\x7d' :: r => some (Json.obj [], r)
      | _ =>
        (parseMembers fuel s1).map fun r => (Json.obj r.1, r.2)
    else if c = '[' then
      let s1 := skipWs rest
      match s1 with
      | ']' :: r => some (Json.arr [], r)
      | _ =>
        (parseElements fuel s1).map fun r => (Json.arr r.1, r.2)
    else if c = '-' ∨ c.isDigit then
      (parseNumberTok (c :: rest)).map fun r => (Json.num r.1, r.2)
    else none

/-- Parse the members of a JSON object, positioned at the first key,
up to and including the closing brace. -/
def parseMembers : Nat → Str → Option (List (Str × Json) × Str)
  | 0, _ => none
  | fuel + 1, s =>
    match parseStringTok s with
    | none => none
    | some (key, s1) =>
      match skipWs s1 with
      | ':' :: s2 =>
        match parseValue fuel (skipWs s2) with
        | none => none
        | some (v, s3) =>
          match skipWs s3 with
          | ',' :: s4 =>
            match parseMembers fuel (skipWs s4) with
            | none => none
            | some (fields, s5) => some ((key, v) :: fields, s5)
          | '\x7d' :: s4 => some ([(key, v)], s4)
          | _ => none
      | _ => none

/-- Parse the elements of a JSON array, positioned at the first element,
up to and including the closing bracket. -/
def parseElements : Nat → Str → Option (List Json × Str)
  | 0, _ => none
  | fuel + 1, s =>
    match parseValue fuel s with
    | none => none
    | some (v, s1) =>
      match skipWs s1 with
      | ',' :: s2 =>
        match parseElements fuel (skipWs s2) with
        | none => none
        | some (vs, s3) => some (v :: vs, s3)
      | ']' :: s2 => some ([v], s2)
      | _ => none

end

/-- Model of `JSON.parse`: parse one value surrounded by whitespace,
demanding that the whole input is consumed. -/
def jsonParse (s : Str) : Option Json :=
  match parseValue (s.length + 1) (skipWs s) with
  | some (v, rest) => if skipWs rest = [] then some v else none
  | none => none

/-- Property access `obj[key]` on a parsed JSON value: defined only for
objects; with duplicate keys the last occurrence wins (as `JSON.parse`). -/
def jsonGet (j : Json) (k : Str) : Option Json :=
  match j with
  | Json.obj fields => fields.foldl (fun acc kv => if kv.1 = k then some kv.2 else acc) none
  | _ => none

/-- Whether the mantissa of a raw number token denotes zero. -/
def isZeroNumTok (raw : Str) : Bool :=
  ((raw.takeWhile fun c => c ≠ 'e' ∧ c ≠ 'E').filter Char.isDigit).all (fun c => c = '0')

/-- JS truthiness of a JSON value. -/
def truthy : Json → Bool
  | Json.null => false
  | Json.bool b => b
  | Json.num raw => ¬ isZeroNumTok raw
  | Json.str s => ¬ s.isEmpty
  | Json.arr _ => true
  | Json.obj _ => true

/-- JS truthiness of a possibly-absent property (`undefined` is falsy). -/
def truthyOpt : Option Json → Bool
  | none => false
  | some v => truthy v

/-- Comma-joining for JS array-to-string coercion. -/
def joinComma : List Str → Str
  | [] => []
  | [s] => s
  | s :: rest => s ++ ',' :: joinComma rest

mutual

/-- Fuel-based JS string coercion of a JSON value (the fuel only bounds the
nesting depth of arrays). -/
def jsToStringAux : Nat → Json → Str
  | 0, _ => []
  | fuel + 1, j =>
    match j with
    | Json.null => "null".toList
    | Json.bool true => "true".toList
    | Json.bool false => "false".toList
    | Json.num raw => raw
    | Json.str s => s
    | Json.arr elems => joinComma (jsToStringList fuel elems)
    | Json.obj _ => "[object Object]".toList

/-- Fuel-based JS string coercion of a list of JSON values. -/
def jsToStringList : Nat → List Json → List Str
  | 0, _ => []
  | _ + 1, [] => []
  | fuel + 1, j :: js => jsToStringAux fuel j :: jsToStringList fuel js

end

/-- JS string coercion of a JSON value parsed from a source text of length
`n`, as used by `assistantContent += data.chunk`: the structure of a parsed
value is strictly smaller than its source text, so `n + 1` fuel never runs
out.  Numbers are rendered by their raw token text (a modelling
simplification that is the identity on the string payloads the protocol
actually carries). -/
def jsToString (n : Nat) (j : Json) : Str := jsToStringAux (n + 1) j

/-! ## Stream consumption in `handleSubmit` (src/web/app/chat/page.tsx)

The loop reads network chunks, splits each decoded chunk on newlines and
processes every line: lines starting with `data: ` carry a JSON payload whose
`chunk` field is appended to the assistant content.  The `throw` on an
`error` payload happens inside the same `try` whose `catch` only logs, so it
never escapes the per-line handler. -/

/-- The `data: ` line marker. -/
def dataMarker : Str := "data: ".toList

/-- The `status` property name. -/
def statusKey : Str := "status".toList

/-- The `error` property name. -/
def errorKey : Str := "error".toList

/-- The `chunk` property name. -/
def chunkKey : Str := "chunk".toList

/-- Whether a parsed payload satisfies `data.status === 'done'`. -/
def isDoneStatus (data : Json) : Bool :=
  match jsonGet data statusKey with
  | some (Json.str s) => s = "done".toList
  | _ => false

/-- Effect of one line of the response body on the assistant content:
`some s` when the line's `chunk` payload `s` is appended, `none` when the
line is skipped (non-`data:` line, blank payload, unparseable payload,
`done` status, `error` payload, falsy `chunk`). -/
def lineEffect (line : Str) : Option Str :=
  if ¬ startsWithStr dataMarker line then none
  else if jsTrim (line.drop 6) = [] then none
  else
    match jsonParse (line.drop 6) with
    | none => none
    | some data =>
      if isDoneStatus data then none
      else if truthyOpt (jsonGet data errorKey) then none
      else
        match jsonGet data chunkKey with
        | some v => if truthy v then some (jsToString (line.drop 6).length v) else none
        | none => none

/-- Content contributed by one line (empty when the line is skipped). -/
def contribution (line : Str) : Str := (lineEffect line).getD []

/-- Content contributed by one decoded network chunk: the code splits it on
newlines and processes every line. -/
def contribTotal (s : Str) : Str := ((splitLines s).map contribution).flatten

/-- Assistant content accumulated over a whole sequence of network reads. -/
def processStream (reads : List Str) : Str := (reads.map contribTotal).flatten

/-- Whether the reassembled body carries the explicit `{status:"done"}` end
marker on one of its lines. -/
def hasDoneMarker (reads : List Str) : Bool :=
  (splitLines reads.flatten).any fun line =>
    startsWithStr dataMarker line &&
      match jsonParse (line.drop 6) with
      | some data => isDoneStatus data
      | none => false

/-- Message roles of the chat page. -/
inductive Role where
  | user
  | assistant
deriving DecidableEq

/-- A displayed chat message. -/
structure Msg where
  role : Role
  content : Str
deriving DecidableEq

/-- The chat page state touched by `handleSubmit`. -/
structure ChatState where
  messages : List Msg
  input : Str
  isStreaming : Bool
  errorBanner : Option Str
deriving DecidableEq

/-- The fixed assistant reply installed by the outer `catch`. -/
def errorReplyText : Str := "抱歉，生成回复时出现问题，请稍后再试。".toList

/-- Outcome of the `/stream` fetch: either the request/response fails before
a readable body is obtained, or the body is delivered as a list of decoded
reads (the connection closing is the end of the list). -/
inductive FetchOutcome where
  | fail
  | ok (reads : List Str)

/-- Model of `handleSubmit`: given the page state, whether the auth manager
holds a token, and the fetch outcome, returns the state after the handler
finishes together with the question sent to `/stream` (`none` when no
request is made). -/
def handleSubmit (st : ChatState) (authed : Bool) (outcome : FetchOutcome) :
    ChatState × Option Str :=
  if (jsTrim st.input).isEmpty || st.isStreaming then (st, none)
  else if ¬ authed then (st, none)
  else
    let q := st.input
    let msgs := st.messages ++ [⟨Role.user, q⟩, ⟨Role.assistant, []⟩]
    match outcome with
    | FetchOutcome.fail =>
      ({ messages := msgs.dropLast ++ [⟨Role.assistant, errorReplyText⟩],
         input := [], isStreaming := false, errorBanner := none }, some q)
    | FetchOutcome.ok reads =>
      ({ messages := msgs.dropLast ++ [⟨Role.assistant, processStream reads⟩],
         input := [], isStreaming := false, errorBanner := none }, some q)

/-! ## AuthManager (src/web/app/login/page.tsx, lib/auth) -/

/-- The `user_type` discriminator. -/
inductive UserType where
  | system
  | guest
deriving DecidableEq

/-- The per-user provider configuration carried by `AuthData.config`. -/
structure UserConfig where
  llm_provider : Str
  llm_model : Str
  llm_api_key : Str
  llm_base_url : Option Str
  embedding_provider : Str
  embedding_model : Str
  embedding_api_key : Str
  embedding_base_url : Option Str
deriving DecidableEq

/-- One entry of the provider availability listing. -/
structure ProviderEntry where
  name : Str
  models : List Str
  available : Bool
deriving DecidableEq

/-- The `providers` field of `AuthData`. -/
structure ProvidersInfo where
  llm_providers : List ProviderEntry
  embedding_providers : List ProviderEntry
deriving DecidableEq

/-- The authentication payload returned by the login endpoints. -/
structure AuthData where
  access_token : Str
  token_type : Str
  user_type : UserType
  config : UserConfig
  providers : ProvidersInfo
deriving DecidableEq

/-- In-memory fields of the `AuthManager` singleton. -/
structure AuthMgr where
  accessToken : Option Str
  userType : Option UserType
  userConfig : Option UserConfig
  providers : Option ProvidersInfo
deriving DecidableEq

/-- The browser `localStorage` slots used by `AuthManager`.  Structured
values stand for their JSON serialisations (`JSON.stringify`/`JSON.parse`
round-trip on these record types is the identity). -/
structure Storage where
  access_token : Option Str
  user_type : Option UserType
  user_config : Option UserConfig
  providers : Option ProvidersInfo
deriving DecidableEq

/-- JS truthiness of a nullable string (`null` and `''` are falsy). -/
def truthyStr : Option Str → Bool
  | none => false
  | some s => ¬ s.isEmpty

/-- Model of `AuthManager.saveToStorage`: each slot is written when the
in-memory field is truthy and removed otherwise, so the resulting storage
depends only on the manager state. -/
def saveToStorage (m : AuthMgr) : Storage :=
  { access_token := if truthyStr m.accessToken then m.accessToken else none,
    user_type := m.userType,
    user_config := m.userConfig,
    providers := m.providers }

/-- Model of `AuthManager.loadFromStorage` (also reached via `refresh`). -/
def loadFromStorage (s : Storage) : AuthMgr :=
  { accessToken := s.access_token,
    userType := s.user_type,
    userConfig := s.user_config,
    providers := s.providers }

/-- Model of `AuthManager.setAuthData`: install the payload in memory, then
persist via `saveToStorage`. -/
def setAuthData (d : AuthData) : AuthMgr × Storage :=
  let m : AuthMgr :=
    { accessToken := some d.access_token,
      userType := some d.user_type,
      userConfig := some d.config,
      providers := some d.providers }
  (m, saveToStorage m)

/-- Model of `AuthManager.clearAuth`: null out every field, then persist. -/
def clearAuth : AuthMgr × Storage :=
  let m : AuthMgr := { accessToken := none, userType := none, userConfig := none, providers := none }
  (m, saveToStorage m)

/-- Model of `AuthManager.isAuthenticated` (`!!this.accessToken`). -/
def isAuthenticated (m : AuthMgr) : Bool := truthyStr m.accessToken

/-- Model of `AuthManager.getAuthHeader`: a singleton record when a truthy
token is held, the empty record otherwise. -/
def getAuthHeader (m : AuthMgr) : List (Str × Str) :=
  match m.accessToken with
  | some t => if t.isEmpty then [] else [("Authorization".toList, "Bearer ".toList ++ t)]
  | none => []

/-! ## Guest login validation (src/web/app/page.tsx) -/

/-- The guest configuration form state (all fields default to `''`). -/
structure GuestConfig where
  llm_provider : Str
  llm_model : Str
  llm_api_key : Str
  llm_base_url : Str
  embedding_provider : Str
  embedding_model : Str
  embedding_api_key : Str
  embedding_base_url : Str
deriving DecidableEq

/-- Model of `validateGuestConfig`: the error messages pushed, in order. -/
def validateGuestConfig (g : GuestConfig) : List Str :=
  (if g.llm_api_key = [] then ["请输入LLM API密钥".toList] else []) ++
  (if g.llm_provider = "openai".toList ∧ ¬ startsWithStr ("sk-".toList) g.llm_api_key then
    ["OpenAI API密钥格式不正确".toList] else []) ++
  (if g.llm_base_url ≠ [] ∧ ¬ startsWithStr ("http".toList) g.llm_base_url then
    ["LLM BaseURL格式不正确".toList] else []) ++
  (if g.embedding_api_key = [] then ["请输入嵌入模型API密钥".toList] else []) ++
  (if g.embedding_provider = "openai".toList ∧ ¬ startsWithStr ("sk-".toList) g.embedding_api_key then
    ["OpenAI嵌入API密钥格式不正确".toList] else []) ++
  (if g.embedding_base_url ≠ [] ∧ ¬ startsWithStr ("http".toList) g.embedding_base_url then
    ["嵌入模型BaseURL格式不正确".toList] else [])

/-- Model of the gate in `handleGuestLogin`: the body sent to `/auth/guest`,
or `none` when validation errors abort before any request. -/
def handleGuestLoginRequest (g : GuestConfig) : Option GuestConfig :=
  if (validateGuestConfig g).length > 0 then none else some g

/-! ## Knowledge-base upload form (src/web/app/docs/page.tsx) -/

/-- The data of a chosen `File` the handler inspects. -/
structure FileInfo where
  name : Str
  size : Nat
deriving DecidableEq

/-- The supported extensions (`supportedTypes`). -/
def supportedTypes : List Str :=
  [".pdf".toList, ".txt".toList, ".md".toList, ".json".toList]

/-- The extension the code computes:
`file.name.toLowerCase().substring(file.name.lastIndexOf('.'))` — JS
`substring` clamps the `-1` of a dot-free name to `0`. -/
def fileExtensionOf (name : Str) : Str :=
  match lastIndexOf '.' name with
  | some i => (name.map toLowerChar).drop i
  | none => name.map toLowerChar

/-- Whether `handleFileSelect` accepts the file (type and size checks pass). -/
def acceptsFile (f : FileInfo) : Bool :=
  decide (fileExtensionOf f.name ∈ supportedTypes) && f.size ≤ 10 * 1024 * 1024

/-- Model of `handleFileSelect`: the new `selectedFile` given the previous
one and the file chosen in the input (if any). -/
def handleFileSelect (selected : Option FileInfo) (chosen : Option FileInfo) :
    Option FileInfo :=
  match chosen with
  | none => selected
  | some f =>
    if fileExtensionOf f.name ∈ supportedTypes then
      if f.size > 10 * 1024 * 1024 then selected else some f
    else selected

/-- Model of the gate in `handleUpload`: an upload starts only when a file
is selected. -/
def uploadStarts (selected : Option FileInfo) : Bool := selected.isSome

/-! ## URL joining (lib/api) -/

/-- The fallback API base. -/
def DEFAULT_BASE : Str := "http://localhost:8000".toList

/-- Model of `API_BASE_URL`: the `NEXT_PUBLIC_API_URL` environment value
when set and non-empty, the default otherwise. -/
def API_BASE_URL (env : Option Str) : Str :=
  match env with
  | some s => if s ≠ [] then s else DEFAULT_BASE
  | none => DEFAULT_BASE

/-- Model of `apiUrl`, parameterised by the base it closes over. -/
def apiUrl (base : Str) (path : Str) : Str :=
  if ¬ startsWithStr ("/".toList) path then base ++ "/".toList ++ path
  else base ++ path

/-! ## Shared example values -/

/-- A concrete guest user configuration carrying non-empty API keys. -/
def cfgEx : UserConfig :=
  { llm_provider := "openai".toList, llm_model := "gpt-4o-mini".toList,
    llm_api_key := "sk-secret".toList, llm_base_url := none,
    embedding_provider := "openai".toList, embedding_model := "text-embedding-3-small".toList,
    embedding_api_key := "sk-embed".toList, embedding_base_url := none }

/-- A concrete provider listing. -/
def provEx : ProvidersInfo := { llm_providers := [], embedding_providers := [] }

/-- A concrete guest `AuthData` with a non-empty access token. -/
def guestAuthEx : AuthData :=
  { access_token := "tok".toList, token_type := "bearer".toList,
    user_type := UserType.guest, config := cfgEx, providers := provEx }

/-- The same payload with an empty access token. -/
def emptyTokenAuthEx : AuthData := { guestAuthEx with access_token := [] }

/-- A guest configuration with both API keys left empty. -/
def emptyKeysGuestCfg : GuestConfig :=
  { llm_provider := "openai".toList, llm_model := "gpt-4o-mini".toList,
    llm_api_key := [], llm_base_url := [],
    embedding_provider := "openai".toList, embedding_model := "text-embedding-3-small".toList,
    embedding_api_key := [], embedding_base_url := [] }

/-- The `data: ` line carrying the explicit end marker, as one read. -/
def doneRead : Str := ("data: \x7b\"status\": \"done\"\x7d\n").toList

/-! ## C4: guest credentials and persistent storage -/

/-- C4 counterexample: a guest `AuthData` whose `setAuthData` writes the full
provider configuration (non-empty API keys included) into localStorage. -/
theorem c4_counterexample :
    guestAuthEx.user_type = UserType.guest ∧
    (setAuthData guestAuthEx).2.user_config = some guestAuthEx.config ∧
    guestAuthEx.config.llm_api_key ≠ [] ∧
    guestAuthEx.config.embedding_api_key ≠ [] := by
  decide

/-- C4 (amended): `setAuthData` persists the full provider configuration
(`user_config`, API keys included) and the provider listing to localStorage
for every `AuthData`, regardless of `user_type`; guest credentials are not
memory-lifetime only. -/
theorem c4_theorem (d : AuthData) :
    (setAuthData d).2.user_config = some d.config ∧
    (setAuthData d).2.providers = some d.providers :=
  ⟨rfl, rfl⟩

/-! ## C8: set/refresh round trip and clearAuth -/

/-- C8 counterexample: an `AuthData` with empty `access_token` does not
survive the `setAuthData` / `refresh` round trip — the falsy token is
removed from storage and reloads as `null`. -/
theorem c8_counterexample :
    emptyTokenAuthEx.access_token = [] ∧
    (loadFromStorage (setAuthData emptyTokenAuthEx).2).accessToken ≠
      some emptyTokenAuthEx.access_token := by
  decide

/-- C8 (amended): for every `AuthData` with a non-empty `access_token`,
`setAuthData` followed by `refresh` (reload from storage) restores the
token, user type, config and providers; after `clearAuth`,
`isAuthenticated` is false and `getAuthHeader` is the empty record. -/
theorem c8_theorem (d : AuthData) (h : d.access_token ≠ []) :
    (loadFromStorage (setAuthData d).2).accessToken = some d.access_token ∧
    (loadFromStorage (setAuthData d).2).userType = some d.user_type ∧
    (loadFromStorage (setAuthData d).2).userConfig = some d.config ∧
    (loadFromStorage (setAuthData d).2).providers = some d.providers ∧
    isAuthenticated clearAuth.1 = false ∧
    getAuthHeader clearAuth.1 = [] := by
  refine ⟨?_, rfl, rfl, rfl, rfl, rfl⟩
  simp [setAuthData, saveToStorage, loadFromStorage, truthyStr, h]

/-- C8 witness: the round trip at a concrete payload with non-empty token. -/
theorem c8_witness :
    (loadFromStorage (setAuthData guestAuthEx).2).accessToken = some guestAuthEx.access_token ∧
    (loadFromStorage (setAuthData guestAuthEx).2).userType = some guestAuthEx.user_type ∧
    (loadFromStorage (setAuthData guestAuthEx).2).userConfig = some guestAuthEx.config ∧
    (loadFromStorage (setAuthData guestAuthEx).2).providers = some guestAuthEx.providers ∧
    isAuthenticated clearAuth.1 = false ∧
    getAuthHeader clearAuth.1 = [] :=
  c8_theorem guestAuthEx (by decide)

/-! ## C2: error events are swallowed by the per-line catch -/

/-- C2: evaluating the consumption loop at a stream carrying only an
`error` event: the handler finishes as a normal completion — the error
banner stays unset, the assistant message stays empty (no error or partial
marker), and the request had been sent — so the error event is silently
ignored while the stream is consumed.  The `throw new Error(data.error)`
sits inside the `try` whose `catch` only logs, so it cannot escape. -/
theorem c2_theorem :
    handleSubmit ⟨[], "hi".toList, false, none⟩ true
        (FetchOutcome.ok [("data: \x7b\"error\":\"boom\"\x7d\n").toList]) =
      ({ messages := [⟨Role.user, "hi".toList⟩, ⟨Role.assistant, []⟩],
         input := [], isStreaming := false, errorBanner := none }, some ("hi".toList)) ∧
    lineEffect (("data: \x7b\"error\":\"boom\"\x7d").toList) = none := by
  decide

/-! ## C3: abrupt close without the `done` marker -/

/-- C3 counterexample: a stream that closes without carrying the
`done` end marker is not treated as failed — its partial content is kept as
the final answer, no error state is produced, and the result is identical
to the same stream with the end marker appended. -/
theorem c3_counterexample :
    hasDoneMarker [("data: \x7b\"chunk\":\"hi\"\x7d\n").toList] = false ∧
    handleSubmit ⟨[], "q".toList, false, none⟩ true
        (FetchOutcome.ok [("data: \x7b\"chunk\":\"hi\"\x7d\n").toList]) =
      handleSubmit ⟨[], "q".toList, false, none⟩ true
        (FetchOutcome.ok ([("data: \x7b\"chunk\":\"hi\"\x7d\n").toList] ++ [doneRead])) ∧
    (handleSubmit ⟨[], "q".toList, false, none⟩ true
        (FetchOutcome.ok [("data: \x7b\"chunk\":\"hi\"\x7d\n").toList])).1.messages.getLast? =
      some ⟨Role.assistant, "hi".toList⟩ ∧
    (handleSubmit ⟨[], "q".toList, false, none⟩ true
        (FetchOutcome.ok [("data: \x7b\"chunk\":\"hi\"\x7d\n").toList])).1.errorBanner = none := by
  decide

/-- C3 (amended): `handleSubmit` treats an abrupt close without the
`done` marker exactly like a completed stream: appending the explicit end
marker to any stream leaves the resulting state (and hence the partial
content kept as the final answer) unchanged, and no failure is signalled
either way. -/
theorem c3_theorem (st : ChatState) (authed : Bool) (reads : List Str) :
    handleSubmit st authed (FetchOutcome.ok reads) =
      handleSubmit st authed (FetchOutcome.ok (reads ++ [doneRead])) := by
  have hdone : contribTotal doneRead = [] := by decide
  by_cases h1 : (jsTrim st.input).isEmpty || st.isStreaming
  · simp [handleSubmit, h1]
  · by_cases h2 : authed
    · simp [handleSubmit, h1, h2, processStream, hdone]
    · simp [handleSubmit, h1, h2]

/-! ## C7: the submit guard -/

/-- An all-whitespace string trims to the empty string. -/
lemma jsTrim_eq_nil_of_all (s : Str) (h : s.all isWsChar = true) : jsTrim s = [] := by
  have h1 : s.dropWhile isWsChar = [] := by
    rw [List.dropWhile_eq_nil_iff]
    intro x hx
    exact List.all_eq_true.mp h x hx
  simp [jsTrim, h1]

/-- C7: an empty or whitespace-only input, or a stream already in flight,
makes `handleSubmit` return with the state unchanged and no request sent;
and whenever a question is sent to `/stream`, it is non-empty. -/
theorem c7_theorem (st : ChatState) (authed : Bool) (outcome : FetchOutcome) :
    ((st.input.all isWsChar = true ∨ st.isStreaming = true) →
      handleSubmit st authed outcome = (st, none)) ∧
    (∀ q : Str, (handleSubmit st authed outcome).2 = some q → q ≠ []) := by
  constructor
  · intro h
    have hg : ((jsTrim st.input).isEmpty || st.isStreaming) = true := by
      rcases h with h | h
      · have hz := jsTrim_eq_nil_of_all st.input h
        rw [hz]
        simp
      · rw [h]
        simp
    simp [handleSubmit, hg]
  · intro q hq
    by_cases h1 : (jsTrim st.input).isEmpty || st.isStreaming
    · simp [handleSubmit, h1] at hq
    · by_cases h2 : authed
      · have hq2 : q = st.input := by
          cases outcome with
          | fail => simpa [handleSubmit, h1, h2] using hq.symm
          | ok reads => simpa [handleSubmit, h1, h2] using hq.symm
        intro hnil
        rw [hq2] at hnil
        rw [hnil] at h1
        exact h1 (by simp [jsTrim])
      · simp [handleSubmit, h1, h2] at hq

/-- C7 witness: a whitespace-only input leaves the state untouched. -/
theorem c7_witness :
    handleSubmit ⟨[], " ".toList, false, none⟩ true (FetchOutcome.ok []) =
      (⟨[], " ".toList, false, none⟩, none) :=
  (c7_theorem ⟨[], " ".toList, false, none⟩ true (FetchOutcome.ok [])).1 (Or.inl (by decide))

/-! ## C6: guest configuration validation -/

set_option maxHeartbeats 1000000 in
/-- C6: `validateGuestConfig` errors exactly on the conditions the claim
lists, `handleGuestLogin` sends the request exactly when validation passes,
and a config with an empty API key is never sent upstream. -/
theorem c6_theorem (g : GuestConfig) :
    (validateGuestConfig g ≠ [] ↔
      (g.llm_api_key = [] ∨ g.embedding_api_key = [] ∨
       (g.llm_provider = "openai".toList ∧ ¬ startsWithStr ("sk-".toList) g.llm_api_key) ∨
       (g.embedding_provider = "openai".toList ∧ ¬ startsWithStr ("sk-".toList) g.embedding_api_key) ∨
       (g.llm_base_url ≠ [] ∧ ¬ startsWithStr ("http".toList) g.llm_base_url) ∨
       (g.embedding_base_url ≠ [] ∧ ¬ startsWithStr ("http".toList) g.embedding_base_url))) ∧
    ((handleGuestLoginRequest g).isSome = true ↔ validateGuestConfig g = []) ∧
    ((g.llm_api_key = [] ∨ g.embedding_api_key = []) → handleGuestLoginRequest g = none) := by
  have hiff : validateGuestConfig g = [] ↔
      (¬ g.llm_api_key = [] ∧
       ¬ (g.llm_provider = "openai".toList ∧ ¬ startsWithStr ("sk-".toList) g.llm_api_key) ∧
       ¬ (g.llm_base_url ≠ [] ∧ ¬ startsWithStr ("http".toList) g.llm_base_url) ∧
       ¬ g.embedding_api_key = [] ∧
       ¬ (g.embedding_provider = "openai".toList ∧ ¬ startsWithStr ("sk-".toList) g.embedding_api_key) ∧
       ¬ (g.embedding_base_url ≠ [] ∧ ¬ startsWithStr ("http".toList) g.embedding_base_url)) := by
    unfold validateGuestConfig
    split_ifs <;> simp_all
  refine ⟨?_, ?_, ?_⟩
  · rw [Ne, hiff]
    push_neg
    constructor
    · intro h
      tauto
    · intro h
      tauto
  · by_cases he : validateGuestConfig g = []
    · simp [handleGuestLoginRequest, he]
    · have hp : 0 < (validateGuestConfig g).length := List.length_pos.mpr he
      simp [handleGuestLoginRequest, hp, he]
  · intro h
    have hne : validateGuestConfig g ≠ [] := by
      rw [Ne, hiff]
      tauto
    have hp : 0 < (validateGuestConfig g).length := List.length_pos.mpr hne
    simp [handleGuestLoginRequest, hp]

/-- C6 witness: a config with both keys empty is rejected before any
request is made. -/
theorem c6_witness : handleGuestLoginRequest emptyKeysGuestCfg = none :=
  (c6_theorem emptyKeysGuestCfg).2.2 (Or.inl (by decide))

/-! ## C5: per-line contribution characterisation -/

/-- A line whose payload parses with a truthy `chunk` field but also a
truthy `error` field. -/
def errChunkLine : Str := ("data: \x7b\"error\":\"e\",\"chunk\":\"x\"\x7d").toList

/-- C5 counterexample: a line that starts with `data: `, has a non-blank
payload that parses as JSON with a truthy `chunk` field — yet contributes
no assistant content, because its truthy `error` field short-circuits the
chunk branch. -/
theorem c5_counterexample :
    startsWithStr dataMarker errChunkLine = true ∧
    jsTrim (errChunkLine.drop 6) ≠ [] ∧
    (jsonParse (errChunkLine.drop 6)).isSome = true ∧
    truthyOpt (jsonGet ((jsonParse (errChunkLine.drop 6)).getD Json.null) chunkKey) = true ∧
    lineEffect errChunkLine = none := by
  decide

/-- C5 (amended): a line contributes assistant content exactly when it
starts with `data: `, its payload is non-blank and parses as JSON whose
`status` field is not `'done'`, whose `error` field is not truthy, and
which has a truthy `chunk` field; a `done` event contributes nothing; and
lines not starting with `data: ` are ignored. -/
theorem c5_theorem (line : Str) :
    ((lineEffect line).isSome = true ↔
      (startsWithStr dataMarker line = true ∧ jsTrim (line.drop 6) ≠ [] ∧
       ∃ j, jsonParse (line.drop 6) = some j ∧ isDoneStatus j = false ∧
         truthyOpt (jsonGet j errorKey) = false ∧
         truthyOpt (jsonGet j chunkKey) = true)) ∧
    (∀ j, jsonParse (line.drop 6) = some j → isDoneStatus j = true → lineEffect line = none) ∧
    (startsWithStr dataMarker line = false → lineEffect line = none) := by
  by_cases hds : startsWithStr dataMarker line = true
  · refine ⟨?_, ?_, ?_⟩
    · by_cases hbl : jsTrim (line.drop 6) = []
      · have heq : lineEffect line = none := by
          simp [lineEffect, hds, hbl]
        rw [heq]
        simp [hbl]
      · cases hp : jsonParse (line.drop 6) with
        | none =>
          have heq : lineEffect line = none := by
            simp [lineEffect, hds, hbl, hp]
          rw [heq]
          constructor
          · intro h
            cases h
          · rintro ⟨-, -, j', hj', -, -, -⟩
            cases hj'
        | some j =>
          by_cases hd : isDoneStatus j = true
          · have heq : lineEffect line = none := by
              simp [lineEffect, hds, hbl, hp, hd]
            rw [heq]
            constructor
            · intro h
              cases h
            · rintro ⟨-, -, j', hj', hd', -, -⟩
              injection hj' with hjj
              subst hjj
              rw [hd] at hd'
              cases hd'
          · by_cases he : truthyOpt (jsonGet j errorKey) = true
            · have heq : lineEffect line = none := by
                simp [lineEffect, hds, hbl, hp, hd, he]
              rw [heq]
              constructor
              · intro h
                cases h
              · rintro ⟨-, -, j', hj', -, he', -⟩
                injection hj' with hjj
                subst hjj
                rw [he] at he'
                cases he'
            · cases hc : jsonGet j chunkKey with
              | none =>
                have heq : lineEffect line = none := by
                  simp [lineEffect, hds, hbl, hp, hd, he, hc]
                rw [heq]
                constructor
                · intro h
                  cases h
                · rintro ⟨-, -, j', hj', -, -, hc'⟩
                  injection hj' with hjj
                  subst hjj
                  rw [hc] at hc'
                  simp [truthyOpt] at hc'
              | some v =>
                by_cases hv : truthy v = true
                · have heq : lineEffect line = some (jsToString (line.drop 6).length v) := by
                    simp [lineEffect, hds, hbl, hp, hd, he, hc, hv]
                  rw [heq]
                  constructor
                  · intro _
                    refine ⟨hds, hbl, j, rfl, ?_, ?_, ?_⟩
                    · revert hd
                      cases isDoneStatus j <;> simp
                    · revert he
                      cases truthyOpt (jsonGet j errorKey) <;> simp
                    · rw [hc]
                      simpa [truthyOpt] using hv
                  · intro _
                    simp
                · have heq : lineEffect line = none := by
                    simp [lineEffect, hds, hbl, hp, hd, he, hc, hv]
                  rw [heq]
                  constructor
                  · intro h
                    cases h
                  · rintro ⟨-, -, j', hj', -, -, hc'⟩
                    injection hj' with hjj
                    subst hjj
                    rw [hc] at hc'
                    simp only [truthyOpt] at hc'
                    exact absurd hc' hv
    · intro j hj hd
      simp [lineEffect, hds, hj, hd]
    · intro h
      rw [hds] at h
      cases h
  · have hds2 : startsWithStr dataMarker line = false := by
      revert hds
      cases startsWithStr dataMarker line <;> simp
    refine ⟨?_, ?_, ?_⟩
    · simp [lineEffect, hds2]
    · intro j _ _
      simp [lineEffect, hds2]
    · intro _
      simp [lineEffect, hds2]

/-- C5 witness: a line not starting with `data: ` contributes nothing. -/
theorem c5_witness : lineEffect ("x".toList) = none :=
  (c5_theorem ("x".toList)).2.2 (by decide)

/-! ## C9: upload form file filtering -/

/-- Every supported extension starts with a dot. -/
lemma mem_supportedTypes_head (e : Str) (h : e ∈ supportedTypes) : ∃ t, e = '.' :: t := by
  fin_cases h
  · exact ⟨"pdf".toList, rfl⟩
  · exact ⟨"txt".toList, rfl⟩
  · exact ⟨"md".toList, rfl⟩
  · exact ⟨"json".toList, rfl⟩

/-- Lowercasing never produces a dot from a non-dot. -/
lemma toLowerChar_eq_dot (c : Char) (h : toLowerChar c = '.') : c = '.' := by
  unfold toLowerChar at h
  split at h <;> first | exact h | exact absurd h (by decide)

/-- A character with no occurrence (per `lastIndexOf`) is not a member. -/
lemma not_mem_of_lastIndexOf_eq_none (c : Char) :
    ∀ s : Str, lastIndexOf c s = none → c ∉ s := by
  intro s
  induction s with
  | nil =>
    intro _ hm
    simp at hm
  | cons x xs ih =>
    intro h hm
    simp only [lastIndexOf] at h
    cases hrec : lastIndexOf c xs with
    | some i =>
      rw [hrec] at h
      cases h
    | none =>
      rw [hrec] at h
      by_cases hxc : x = c
      · rw [if_pos hxc] at h
        cases h
      · rcases List.mem_cons.mp hm with h1 | h1
        · exact hxc h1.symm
        · exact ih hrec h1

/-- A dot-free name cannot lowercase into a supported extension. -/
lemma map_toLower_not_mem (name : Str) (h : lastIndexOf '.' name = none) :
    name.map toLowerChar ∉ supportedTypes := by
  intro hmem
  obtain ⟨t, ht⟩ := mem_supportedTypes_head _ hmem
  cases name with
  | nil => cases ht
  | cons c rest =>
    rw [List.map_cons] at ht
    injection ht with h1 h2
    have hc : c = '.' := toLowerChar_eq_dot c h1
    exact not_mem_of_lastIndexOf_eq_none '.' (c :: rest) h (by rw [hc]; exact List.mem_cons_self '.' rest)

/-- C9: `handleFileSelect` sets `selectedFile` exactly for files whose
extension (the lowercased suffix from the last dot) is supported and whose
size is at most 10 MiB; a violating file leaves the selection unchanged;
and with no selection, no upload can start. -/
theorem c9_theorem (sel : Option FileInfo) (f : FileInfo) :
    (acceptsFile f = true → handleFileSelect sel (some f) = some f) ∧
    (acceptsFile f = false → handleFileSelect sel (some f) = sel) ∧
    (acceptsFile f = true ↔
      ((∃ i, lastIndexOf '.' f.name = some i ∧
          (f.name.drop i).map toLowerChar ∈ supportedTypes) ∧
       f.size ≤ 10 * 1024 * 1024)) ∧
    uploadStarts none = false := by
  refine ⟨?_, ?_, ?_, rfl⟩
  · intro h
    simp only [acceptsFile, Bool.and_eq_true, decide_eq_true_eq] at h
    obtain ⟨hmem, hsz⟩ := h
    simp [handleFileSelect, hmem, Nat.not_lt.mpr hsz]
  · intro h
    by_cases hmem : fileExtensionOf f.name ∈ supportedTypes
    · have hsz : ¬ f.size ≤ 10 * 1024 * 1024 := by
        intro hle
        rw [acceptsFile] at h
        simp [hmem, hle] at h
      have hgt : 10 * 1024 * 1024 < f.size := Nat.not_le.mp hsz
      simp [handleFileSelect, hmem, hgt]
    · simp [handleFileSelect, hmem]
  · constructor
    · intro h
      simp only [acceptsFile, Bool.and_eq_true, decide_eq_true_eq] at h
      obtain ⟨hmem, hsz⟩ := h
      refine ⟨?_, hsz⟩
      cases hi : lastIndexOf '.' f.name with
      | some i =>
        refine ⟨i, rfl, ?_⟩
        rw [List.map_drop]
        simp only [fileExtensionOf, hi] at hmem
        exact hmem
      | none =>
        simp only [fileExtensionOf, hi] at hmem
        exact absurd hmem (map_toLower_not_mem f.name hi)
    · rintro ⟨⟨i, hi, hmem⟩, hsz⟩
      simp only [acceptsFile, Bool.and_eq_true, decide_eq_true_eq]
      refine ⟨?_, by simpa using hsz⟩
      simp only [fileExtensionOf, hi]
      rw [← List.map_drop]
      exact hmem

/-- C9 witness: an uppercase `.PDF` file within the size bound is selected. -/
theorem c9_witness :
    handleFileSelect none (some ⟨"a.PDF".toList, 100⟩) = some ⟨"a.PDF".toList, 100⟩ :=
  (c9_theorem none ⟨"a.PDF".toList, 100⟩).1 (by decide)

/-! ## C10: URL joining -/

/-- Whether the join produced by `apiUrl` carries exactly one slash at the
seam between the base and the path: the text after the base must start with
a slash not followed by another slash. -/
def oneSeparatingSlash (base path : Str) : Bool :=
  match (apiUrl base path).drop base.length with
  | '/' :: rest => ¬ startsWithStr ("/".toList) rest
  | _ => false

/-- Starting with a single slash, as a shape statement. -/
lemma startsWithStr_slash (s : Str) :
    startsWithStr ("/".toList) s = true ↔ ∃ t, s = '/' :: t := by
  cases s with
  | nil => simp [startsWithStr]
  | cons c t =>
    simp [startsWithStr, List.take]

/-- C10 counterexample: a path beginning with two slashes keeps them, so
the join carries two consecutive slashes at the seam. -/
theorem c10_counterexample :
    apiUrl (API_BASE_URL none) ("//x".toList) = API_BASE_URL none ++ "//x".toList ∧
    oneSeparatingSlash (API_BASE_URL none) ("//x".toList) = false := by
  decide

/-- C10 (amended): `apiUrl` prepends `'/'` exactly when the path does not
start with one, and the join carries exactly one separating slash for every
path that does not itself begin with two slashes. -/
theorem c10_theorem (base path : Str) :
    (startsWithStr ("/".toList) path = false →
      apiUrl base path = base ++ "/".toList ++ path) ∧
    (startsWithStr ("/".toList) path = true → apiUrl base path = base ++ path) ∧
    (startsWithStr ("//".toList) path = false → oneSeparatingSlash base path = true) := by
  refine ⟨?_, ?_, ?_⟩
  · intro h
    have hl : startsWithStr ['/'] path = false := h
    simp [apiUrl, hl]
  · intro h
    have hl : startsWithStr ['/'] path = true := h
    simp [apiUrl, hl]
  · intro h2
    by_cases h1 : startsWithStr ("/".toList) path = true
    · obtain ⟨t, rfl⟩ := (startsWithStr_slash path).mp h1
      have h1l : startsWithStr ['/'] ('/' :: t) = true := h1
      have happ : apiUrl base ('/' :: t) = base ++ '/' :: t := by
        simp [apiUrl, h1l]
      have hrest : startsWithStr ['/'] t = false := by
        revert h2
        simp [startsWithStr, List.take]
      rw [oneSeparatingSlash, happ, List.drop_left]
      simp [hrest]
    · have h1f : startsWithStr ['/'] path = false := by
        revert h1
        cases hs : startsWithStr ("/".toList) path
        · intro _
          exact hs
        · intro hcon
          exact absurd rfl hcon
      have happ : apiUrl base path = base ++ '/' :: path := by
        simp [apiUrl, h1f]
      rw [oneSeparatingSlash, happ, List.drop_left]
      simp [h1f]

/-- C10 witness: a plain path gets exactly one separating slash from the
default base. -/
theorem c10_witness :
    apiUrl (API_BASE_URL none) ("docs".toList) =
      API_BASE_URL none ++ "/".toList ++ "docs".toList ∧
    oneSeparatingSlash (API_BASE_URL none) ("docs".toList) = true :=
  ⟨(c10_theorem (API_BASE_URL none) ("docs".toList)).1 (by decide),
   (c10_theorem (API_BASE_URL none) ("docs".toList)).2.2 (by decide)⟩

/-! ## C1: stream reassembly vs per-read line splitting -/

/-- Membership of the last element. -/
lemma mem_of_getLast_eq {s : Str} {a : Char} (h : s.getLast? = some a) : a ∈ s := by
  obtain ⟨hne, heq⟩ := List.mem_getLast?_eq_getLast (Option.mem_def.mpr h)
  rw [heq]
  exact List.getLast_mem hne

/-- `consHead` never produces the empty list. -/
lemma consHead_ne_nil (c : Char) (ls : List Str) : consHead c ls ≠ [] := by
  cases ls <;> simp [consHead]

/-- `splitLines` never produces the empty list. -/
lemma splitLines_ne_nil (s : Str) : splitLines s ≠ [] := by
  cases s with
  | nil => simp [splitLines]
  | cons c cs =>
    simp only [splitLines]
    split
    · simp
    · exact consHead_ne_nil c (splitLines cs)

/-- One-step unfolding of `splitLines` on a cons cell. -/
lemma splitLines_cons (c : Char) (cs : Str) :
    splitLines (c :: cs) = if c = '\n' then [] :: splitLines cs else consHead c (splitLines cs) :=
  rfl

/-- A string containing a newline splits into at least two pieces. -/
lemma length_splitLines_ge_two {s : Str} (h : '\n' ∈ s) : 2 ≤ (splitLines s).length := by
  induction s with
  | nil => simp at h
  | cons c cs ih =>
    simp only [splitLines]
    by_cases hc : c = '\n'
    · rw [if_pos hc]
      have h1 : 0 < (splitLines cs).length := List.length_pos.mpr (splitLines_ne_nil cs)
      simp only [List.length_cons]
      omega
    · rw [if_neg hc]
      have hmem : '\n' ∈ cs := by
        rcases List.mem_cons.mp h with h1 | h1
        · exact absurd h1.symm hc
        · exact h1
      have h2 := ih hmem
      rcases hl : splitLines cs with _ | ⟨l, ls⟩
      · exact absurd hl (splitLines_ne_nil cs)
      · rw [hl] at h2
        simp only [consHead, List.length_cons] at h2 ⊢
        omega

/-- A newline-terminated string splits into pieces ending with the empty
piece. -/
lemma getLast_splitLines : ∀ {s : Str}, s.getLast? = some '\n' →
    (splitLines s).getLast? = some [] := by
  intro s
  induction s with
  | nil =>
    intro h
    cases h
  | cons c cs ih =>
    intro h
    cases cs with
    | nil =>
      have hc : c = '\n' := by simpa using h
      subst hc
      decide
    | cons d ds =>
      have h2 : (d :: ds).getLast? = some '\n' := by
        rw [List.getLast?_cons_cons] at h
        exact h
      have ihr := ih h2
      rw [splitLines_cons]
      by_cases hc : c = '\n'
      · rw [if_pos hc]
        rcases hl : splitLines (d :: ds) with _ | ⟨l, ls⟩
        · exact absurd hl (splitLines_ne_nil _)
        · rw [hl] at ihr
          rw [List.getLast?_cons_cons]
          exact ihr
      · rw [if_neg hc]
        have hmem : '\n' ∈ d :: ds := mem_of_getLast_eq h2
        have hlen := length_splitLines_ge_two hmem
        rcases hl : splitLines (d :: ds) with _ | ⟨l, ls⟩
        · exact absurd hl (splitLines_ne_nil _)
        · rcases ls with _ | ⟨l2, ls2⟩
          · rw [hl] at hlen
            simp at hlen
          · rw [hl] at ihr
            simp only [consHead]
            rw [List.getLast?_cons_cons]
            rw [List.getLast?_cons_cons] at ihr
            exact ihr

/-- Splitting distributes over append when the left part is
newline-terminated: the left part's trailing empty piece merges with the
right part's first piece. -/
lemma splitLines_append : ∀ (x : Str), x.getLast? = some '\n' → ∀ y : Str,
    splitLines (x ++ y) = (splitLines x).dropLast ++ splitLines y := by
  intro x
  induction x with
  | nil =>
    intro h
    cases h
  | cons c cs ih =>
    intro h y
    cases cs with
    | nil =>
      have hc : c = '\n' := by simpa using h
      subst hc
      simp only [List.cons_append, List.nil_append]
      simp [splitLines]
    | cons d ds =>
      have h2 : (d :: ds).getLast? = some '\n' := by
        rw [List.getLast?_cons_cons] at h
        exact h
      have ihy := ih h2 y
      rw [List.cons_append, splitLines_cons, ihy, splitLines_cons c (d :: ds)]
      by_cases hc : c = '\n'
      · rw [if_pos hc, if_pos hc]
        rcases hl : splitLines (d :: ds) with _ | ⟨l, ls⟩
        · exact absurd hl (splitLines_ne_nil _)
        · simp only [List.dropLast_cons₂, List.cons_append]
      · rw [if_neg hc, if_neg hc]
        have hmem : '\n' ∈ d :: ds := mem_of_getLast_eq h2
        have hlen := length_splitLines_ge_two hmem
        rcases hl : splitLines (d :: ds) with _ | ⟨l, ls⟩
        · exact absurd hl (splitLines_ne_nil _)
        · rcases ls with _ | ⟨l2, ls2⟩
          · rw [hl] at hlen
            simp at hlen
          · simp only [List.dropLast_cons₂, List.cons_append, consHead]

/-- The empty line contributes nothing. -/
lemma contribution_nil : contribution [] = [] := by decide

/-- Per-chunk line processing distributes over append at newline
boundaries. -/
lemma contribTotal_append {x : Str} (h : x.getLast? = some '\n') (y : Str) :
    contribTotal (x ++ y) = contribTotal x ++ contribTotal y := by
  unfold contribTotal
  rw [splitLines_append x h y, List.map_append, List.flatten_append]
  congr 1
  have hlast : (splitLines x).getLast? = some [] := getLast_splitLines h
  have hx : (splitLines x).dropLast ++ [[]] = splitLines x :=
    List.dropLast_append_getLast? [] (Option.mem_def.mpr hlast)
  conv_rhs => rw [← hx]
  rw [List.map_append, List.flatten_append]
  simp [contribution_nil]

/-- Processing reads one at a time equals processing the reassembled body,
provided every read ends at a line boundary. -/
lemma processStream_eq (reads : List Str) (h : ∀ r ∈ reads, r.getLast? = some '\n') :
    processStream reads = contribTotal reads.flatten := by
  induction reads with
  | nil =>
    have h0 : contribTotal [] = [] := by decide
    simp [processStream, h0]
  | cons r rs ih =>
    have hr : r.getLast? = some '\n' := h r (List.mem_cons_self r rs)
    have hrs : ∀ x ∈ rs, x.getLast? = some '\n' := fun x hx => h x (List.mem_cons_of_mem r hx)
    simp only [processStream, List.map_cons, List.flatten_cons]
    rw [contribTotal_append hr rs.flatten]
    rw [← ih hrs]
    rfl

/-- C1 counterexample: a `data: ` line split across two reads is dropped —
the displayed assistant content is empty although the stream's reassembled
`data: ` lines carry the chunk payload `"ab"`. -/
theorem c1_counterexample :
    (handleSubmit ⟨[], "q".toList, false, none⟩ true
        (FetchOutcome.ok [("data: \x7b\"chu").toList, ("nk\":\"ab\"\x7d\n").toList])).1.messages.getLast? =
      some ⟨Role.assistant, []⟩ ∧
    contribTotal ([("data: \x7b\"chu").toList, ("nk\":\"ab\"\x7d\n").toList]).flatten = "ab".toList ∧
    ("ab".toList : Str) ≠ [] := by
  decide

/-- C1 (amended): whenever every network read ends at a line boundary (so
no `data: ` line is split across reads), the assistant content displayed
after the stream ends equals the concatenation, in arrival order, of every
chunk payload carried by the reassembled stream's `data: ` lines — nothing
reordered, dropped, or duplicated. -/
theorem c1_theorem (st : ChatState) (reads : List Str)
    (h1 : (jsTrim st.input).isEmpty = false) (h2 : st.isStreaming = false)
    (h3 : ∀ r ∈ reads, r.getLast? = some '\n') :
    (handleSubmit st true (FetchOutcome.ok reads)).1.messages.getLast? =
      some ⟨Role.assistant, contribTotal reads.flatten⟩ := by
  have hguard : ((jsTrim st.input).isEmpty || st.isStreaming) = false := by
    rw [h1, h2]
    rfl
  simp only [handleSubmit, hguard, Bool.false_eq_true, if_false, not_true_eq_false]
  simp only [List.getLast?_concat]
  rw [processStream_eq reads h3]

/-- C1 witness: a single newline-terminated read shows the equality at a
concrete stream. -/
theorem c1_witness :
    (handleSubmit ⟨[], "q2".toList, false, none⟩ true
        (FetchOutcome.ok [("data: \x7b\"chunk\":\"ab\"\x7d\n").toList])).1.messages.getLast? =
      some ⟨Role.assistant, contribTotal ([("data: \x7b\"chunk\":\"ab\"\x7d\n").toList]).flatten⟩ :=
  c1_theorem ⟨[], "q2".toList, false, none⟩ [("data: \x7b\"chunk\":\"ab\"\x7d\n").toList]
    (by decide) rfl (by decide)

end RagChatbot
